import Mathlib

/-!
# Verification of the Coveo AI citation answer renderer

Shallow embedding of the citation/answer logic of `CoveoSearchPrototype.tsx`
(and its earlier iteration): the citation segmenter, the source resolver,
the inline placement (rendering) policy, the source-visibility toggle and
the search handler.  JavaScript strings are modelled as Lean `String`
(lists of characters); JavaScript numbers used as source ids are modelled
as `Nat` (the data model uses small positive integers); `toString` on such
an id is modelled by `natToStr`, canonical decimal notation.
-/

namespace Coveo

/-- A cited reference, mirroring `interface Source` in the component. -/
structure Source where
  id : Nat
  label : String
  url : String
  excerpt : String
  date : Option String
  type : String
deriving Repr, DecidableEq

/-- One reasoning step, mirroring `interface ReasoningStep`. -/
structure ReasoningStep where
  step : Nat
  title : String
  description : String
  timeMs : Nat
deriving Repr, DecidableEq

/-- One synthesized answer, mirroring `interface AnswerData`. -/
structure AnswerData where
  answer : String
  sources : List Source
  reasoning : List ReasoningStep
deriving Repr, DecidableEq

/-! ## Decimal stringification of a source id

`natToStrAux` mirrors the digit loop of decimal `toString`; the fuel
argument only bounds the recursion (`fuel = n` always suffices since
`n / 10 < n` for `n > 0`). -/

/-- Digit accumulation loop of decimal notation. -/
def natToStrAux : Nat → Nat → List Char → List Char
  | 0, _, acc => acc
  | fuel + 1, n, acc =>
    if n = 0 then acc else natToStrAux fuel (n / 10) (Nat.digitChar (n % 10) :: acc)

/-- `toString` on a non-negative integer id: canonical decimal notation. -/
def natToStr (n : Nat) : String :=
  if n = 0 then "0" else ⟨natToStrAux n n []⟩

/-- The source resolver: `sources.find(s => s.id.toString() === id)`. -/
def findSource (sources : List Source) (id : String) : Option Source :=
  sources.find? (fun s => natToStr s.id == id)

/-! ## Source visibility state

`showSources : number | false` is modelled as `Option Nat` (`none` is the
`AllHidden` state, `some i` the `Expanded(i)` state). -/

/-- Initial visibility state: `useState<number | false>(false)`. -/
def initialShowSources : Option Nat := none

/-- `toggleSource`: `setShowSources(cur => cur === sourceId ? false : sourceId)`. -/
def toggleSource (sourceId : Nat) (cur : Option Nat) : Option Nat :=
  if cur = some sourceId then none else some sourceId

/-! ## Query resolution (`handleSearch`) -/

/-- `p == c` on the head for each pattern character: prefix test on char lists. -/
def startsWithChars : List Char → List Char → Bool
  | [], _ => true
  | _ :: _, [] => false
  | p :: ps, c :: cs => p == c && startsWithChars ps cs

/-- `String.prototype.includes`: substring containment of `pat`. -/
def containsSub (pat : List Char) : List Char → Bool
  | [] => startsWithChars pat []
  | c :: cs => startsWithChars pat (c :: cs) || containsSub pat cs

/-- Run-collapsing loop of `.replace(/[^a-z0-9]+/g, '-')`: a maximal run of
characters outside `[a-z0-9]` becomes a single dash; the flag records being
inside such a run. -/
def collapseAux : Bool → List Char → List Char
  | _, [] => []
  | inRun, c :: cs =>
    if c.isLower || c.isDigit then c :: collapseAux false cs
    else if inRun then collapseAux true cs
    else '-' :: collapseAux true cs

/-- Removes one leading dash, as `.replace(/(^-|-$)/g, '')` does at the start. -/
def dropLeadDash : List Char → List Char
  | '-' :: r => r
  | l => l

/-- `.replace(/(^-|-$)/g, '')`: one dash removed at each edge. -/
def stripEdgeDash (l : List Char) : List Char :=
  (dropLeadDash (dropLeadDash l).reverse).reverse

/-- The slugging function of `handleSearch`:
`q.toLowerCase().replace(/[^a-z0-9]+/g, '-').replace(/(^-|-$)/g, '')`. -/
def slugify (q : String) : String :=
  ⟨stripEdgeDash (collapseAux false (q.data.map Char.toLower))⟩

/-- The ordered fragment dispatch of `handleSearch`: first fragment contained
in the slug selects a mock payload file. -/
def matchFragment (slug : String) : Option String :=
  if containsSub "relevance-ranking".data slug.data then some "relevance-ranking.json"
  else if containsSub "data-sources".data slug.data then some "data-sources.json"
  else if containsSub "salesforce".data slug.data then some "salesforce-integration.json"
  else none

/-- Outcome of the dynamic `import` of a mock payload. -/
inductive FetchResult where
  | ok (d : AnswerData)
  | err
deriving Repr

/-- Diagnostic stream entries (`console.error` calls of `handleSearch`). -/
inductive LogEntry where
  | noMatch (slug : String)
  | loadError (slug : String)
deriving Repr, DecidableEq

/-- The `mockReasoningData` constant added to every resolved answer. -/
def mockReasoningData : List ReasoningStep :=
  [⟨1, "Query Analysis",
    "Analyzed query to identify key intents. Determined primary intent as procedural integration instructions.", 85⟩,
   ⟨2, "Knowledge Base Search",
    "Searched Coveo documentation with specialized weights for technical integration guides. Found 14 potential documents with relevance scores between 0.82-0.95.", 223⟩,
   ⟨3, "Source Evaluation",
    "Assessed document freshness, accuracy, and comprehensiveness. Selected 3 primary sources with highest combined relevance and authority scores.", 178⟩,
   ⟨4, "Semantic Chunking",
    "Extracted relevant passages from selected documents. Applied contextual chunking to maintain procedural integrity of multi-step instructions.", 144⟩,
   ⟨5, "Answer Synthesis",
    "Generated comprehensive answer using extracted information. Structured response with sequential steps, maintained technical accuracy, and preserved source attribution.", 267⟩]

/-- Component state touched by `handleSearch`. -/
structure UIState where
  query : String
  answer : Option AnswerData
  showSources : Option Nat
  activeTab : String
deriving Repr, DecidableEq

/-- `handleSearch`: guard on the empty query, eager `setQuery` /
`setShowSources(false)` / `setActiveTab("perplexity")`, slug computation,
fragment dispatch, then `setAnswer` on success, `console.error` and no
state change on a missing fragment, `console.error` and `setAnswer(null)`
when the payload load throws.  The dynamic import is abstracted by the
`fetch` oracle. -/
def handleSearch (st : UIState) (q : String) (fetch : String → FetchResult) :
    UIState × List LogEntry :=
  if q = "" then (st, [])
  else
    let st1 : UIState := { st with query := q, showSources := none, activeTab := "perplexity" }
    let slug := slugify q
    match matchFragment slug with
    | none => (st1, [LogEntry.noMatch slug])
    | some file =>
      match fetch file with
      | FetchResult.ok d =>
        ({ st1 with answer := some { d with reasoning := mockReasoningData } }, [])
      | FetchResult.err => ({ st1 with answer := none }, [LogEntry.loadError slug])

/-! ## The citation segmenter

`renderAnswerWithInlineSources` first splits the answer string on all
non-overlapping matches of `/【\d+】/g`, producing text and citation
segments.  `matchAt` decides whether such a match starts at the current
position (the pattern matches exactly when `【` is followed by a non-empty
maximal digit run followed immediately by `】`, since `】` is not a digit
the greedy `\d+` cannot backtrack into a match); `segLoopF` is the scan
loop, with `pend` the characters accumulated since the last match
(`processedAnswer.slice(lastIndex, match.index)`, reversed) and a fuel
argument bounding the recursion (each step consumes at least one input
character, so `length + 1` fuel always suffices). -/

/-- A renderable segment: `{type: 'text', content}` or
`{type: 'citation', content, id}`. -/
inductive Segment where
  | text (content : String)
  | citation (content : String) (id : String)
deriving Repr, DecidableEq

/-- The `content` field of a segment. -/
def segContent : Segment → String
  | .text c => c
  | .citation c _ => c

/-- Concatenation, in order, of the `content` of every segment. -/
def concatSegs (segs : List Segment) : String :=
  ⟨(segs.map (fun sg => (segContent sg).data)).flatten⟩

/-- Does a match of `/【\d+】/` start at the head?  Returns the matched text
(`match[0]`), the extracted id (`match[0].match(/\d+/)[0]`), and the
characters after the match. -/
def matchAt : List Char → Option (String × String × List Char)
  | [] => none
  | c :: cs =>
    if c = '【' then
      let ds := cs.takeWhile Char.isDigit
      if ds = [] then none
      else
        match cs.dropWhile Char.isDigit with
        | x :: rest2 =>
          if x = '】' then some (⟨'【' :: (ds ++ ['】'])⟩, ⟨ds⟩, rest2) else none
        | [] => none
    else none

/-- The scan loop of the segmenter. -/
def segLoopF : Nat → List Char → List Char → List Segment
  | 0, _, _ => []
  | fuel + 1, pend, l =>
    match l with
    | [] => if pend.isEmpty then [] else [Segment.text ⟨pend.reverse⟩]
    | c :: cs =>
      match matchAt (c :: cs) with
      | some (co, i, r) =>
        (if pend.isEmpty then [] else [Segment.text ⟨pend.reverse⟩]) ++
          (Segment.citation co i :: segLoopF fuel [] r)
      | none => segLoopF fuel (c :: pend) cs

/-- The citation segmenter: the segment array built by
`renderAnswerWithInlineSources` from the answer string. -/
def segmentAnswer (s : String) : List Segment :=
  segLoopF (s.data.length + 1) [] s.data

/-- Does the list contain a citation marker anywhere? -/
def hasMarkerB : List Char → Bool
  | [] => false
  | c :: cs => (matchAt (c :: cs)).isSome || hasMarkerB cs

/-! ## The rendering (inline placement) pass

The second half of `renderAnswerWithInlineSources` maps the segments to
rendered output.  A text segment followed by a citation segment is split at
the last `'.'` (`lastIndexOf`): the part up to and including the period,
then the `Citation` element for the following citation id, then (when that
id is the currently expanded one) the `SourceCard` block, then the rest of
the text.  Any other text segment renders verbatim, and every citation
segment itself renders as `null`. -/

/-- `content.lastIndexOf('.')` and its relatives: index of the last
occurrence of a character. -/
def lastIdxOf (ch : Char) : List Char → Option Nat
  | [] => none
  | c :: cs =>
    match lastIdxOf ch cs with
    | some i => some (i + 1)
    | none => if c == ch then some 0 else none

/-- JavaScript `parseInt` on the id strings occurring here (digit strings,
possibly empty): the numeric value of the leading digit run, `none` for NaN. -/
def parseIntOpt (s : String) : Option Nat :=
  let ds := s.data.takeWhile Char.isDigit
  if ds.isEmpty then none
  else some (ds.foldl (fun a c => a * 10 + (c.toNat - '0'.toNat)) 0)

/-- The guard `showSources === parseInt(id)` of the expanded card. -/
def cardCond (sh : Option Nat) (cid : String) : Bool :=
  match sh, parseIntOpt cid with
  | some a, some b => a == b
  | _, _ => false

/-- A flattened piece of rendered output: a text span, a `Citation` element
(whose own rendering depends on the resolver result), or a `SourceCard`
block (receiving the resolver result, asserted non-null in the source). -/
inductive Piece where
  | str (s : String)
  | cite (id : String) (resolved : Option Source)
  | card (src : Option Source)
deriving Repr, DecidableEq

/-- The `segments.map((segment, index) => ...)` rendering pass, flattened. -/
def renderLoop (sources : List Source) (sh : Option Nat) : List Segment → List Piece
  | [] => []
  | Segment.text t :: rest =>
    match lastIdxOf '.' t.data, rest with
    | some p, Segment.citation _ cid :: _ =>
      Piece.str ⟨t.data.take (p + 1)⟩ ::
        Piece.cite cid (findSource sources cid) ::
          ((if cardCond sh cid then [Piece.card (findSource sources cid)] else []) ++
            (Piece.str ⟨t.data.drop (p + 1)⟩ :: renderLoop sources sh rest))
    | _, _ => Piece.str t :: renderLoop sources sh rest
  | Segment.citation _ _ :: rest => renderLoop sources sh rest

/-! ## Specification-side description of the segmenter output

These definitions follow the words of the specification (§4.1 and testable
property 3), not the code: a citation marker is the full-width bracket pair
around a non-empty digit run; the segmenter output is an ordered
decomposition of the input in which every position where a marker starts is
taken as a citation segment, the maximal non-empty stretches between
markers are text segments, and empty text segments are omitted. -/

/-- The characters of a citation marker with inner digits `d`. -/
def markerChars (d : List Char) : List Char := '【' :: (d ++ ['】'])

/-- A non-empty run of decimal digits. -/
def IsDigitRun (d : List Char) : Prop := d ≠ [] ∧ ∀ c ∈ d, c.isDigit = true

/-- A citation marker occurrence starts at the head of `l`. -/
def StartsWithMarker (l : List Char) : Prop :=
  ∃ d r, IsDigitRun d ∧ l = markerChars d ++ r

/-- Spec-side segmenter contract: the segments decompose the input in
left-to-right scan order.  A citation segment consumes exactly a marker and
carries the marker text as `content` and the inner digits as `id`; a text
segment is non-empty, no marker occurrence starts anywhere inside it
(looking ahead into the rest of the input, so every match is taken), and it
ends exactly where the input ends or the next marker starts (so text
segments are maximal and empty ones are omitted). -/
inductive SpecSegmentation : List Char → List Segment → Prop where
  | nil : SpecSegmentation [] []
  | cite (d r : List Char) (segs : List Segment) :
      IsDigitRun d → SpecSegmentation r segs →
      SpecSegmentation (markerChars d ++ r) (Segment.citation ⟨markerChars d⟩ ⟨d⟩ :: segs)
  | text (t r : List Char) (segs : List Segment) :
      t ≠ [] → (∀ i, i < t.length → ¬ StartsWithMarker ((t ++ r).drop i)) →
      (r = [] ∨ StartsWithMarker r) → SpecSegmentation r segs →
      SpecSegmentation (t ++ r) (Segment.text ⟨t⟩ :: segs)

/-! ## Concrete records for instantiations -/

/-- First example source record. -/
def src1 : Source :=
  ⟨1, "Coveo Docs", "https://docs.coveo.com", "Excerpt one", none, "Documentation"⟩

/-- Second example source record. -/
def src2 : Source :=
  ⟨2, "Coveo Blog", "https://blog.coveo.com", "Excerpt two", some "2024-01-01", "Blog"⟩

/-- A concrete prior UI state with an expanded source card. -/
def st0 : UIState := ⟨"prior query", none, some 1, "sources"⟩

/-! ## Stringification lemmas -/

/-- The digit loop on `0` returns the accumulator unchanged. -/
theorem natToStrAux_zero (fuel : Nat) (acc : List Char) : natToStrAux fuel 0 acc = acc := by
  cases fuel <;> simp [natToStrAux]

/-- With enough fuel, the digit loop of a positive number produces a list
whose head is a non-zero digit. -/
theorem natToStrAux_head (fuel : Nat) : ∀ (n : Nat) (acc : List Char), n ≠ 0 → n ≤ fuel →
    ∃ c rest, natToStrAux fuel n acc = c :: rest ∧ c ≠ '0' := by
  induction fuel with
  | zero => intro n acc hn hle; omega
  | succ fuel ih =>
    intro n acc hn hle
    rw [natToStrAux, if_neg hn]
    by_cases h10 : n / 10 = 0
    · have hlt : n < 10 := (Nat.div_eq_zero_iff (by norm_num)).mp h10
      rw [h10, natToStrAux_zero]
      refine ⟨Nat.digitChar (n % 10), acc, rfl, ?_⟩
      rw [Nat.mod_eq_of_lt hlt]
      interval_cases n <;> simp_all <;> decide
    · have hdec : n / 10 < n := Nat.div_lt_self (Nat.pos_of_ne_zero hn) (by norm_num)
      exact ih (n / 10) _ h10 (by omega)

/-- Canonical decimal notation never carries a leading zero, so it never
equals a digit string such as `"01"`. -/
theorem natToStr_ne_leading_zero (n : Nat) (id : String)
    (h0 : id.data.head? = some '0') (h2 : 2 ≤ id.data.length) : natToStr n ≠ id := by
  intro heq
  by_cases hn : n = 0
  · rw [hn] at heq
    have hdata : id.data = ['0'] := by rw [← heq]; rfl
    rw [hdata] at h2
    simp at h2
  · obtain ⟨c, rest, haux, hc⟩ := natToStrAux_head n n [] hn (le_refl n)
    simp only [natToStr, if_neg hn] at heq
    have hdata : natToStrAux n n [] = id.data := congrArg String.data heq
    rw [haux] at hdata
    rw [← hdata] at h0
    simp at h0
    exact hc h0

/-! ## Resolver lemmas -/

/-- The resolver returns `none` exactly when no source id stringifies to
the requested id. -/
theorem findSource_none_iff (srcs : List Source) (id : String) :
    findSource srcs id = none ↔ ∀ s ∈ srcs, natToStr s.id ≠ id := by
  simp [findSource, List.find?_eq_none]

/-- A resolved source matches the requested id and is the first match in
list order. -/
theorem findSource_some {srcs : List Source} {id : String} {s : Source}
    (h : findSource srcs id = some s) :
    natToStr s.id = id ∧ ∃ pre post, srcs = pre ++ s :: post ∧ ∀ x ∈ pre, natToStr x.id ≠ id := by
  rw [findSource, List.find?_eq_some] at h
  obtain ⟨hp, pre, post, he, hpre⟩ := h
  refine ⟨eq_of_beq hp, pre, post, he, fun x hx => ?_⟩
  have hx' := hpre x hx
  simpa using hx'

/-- Claim C4: for every source list and citation id string, the resolver
returns the first source (in list order, also under duplicate ids) whose
numeric id stringifies equal to the given id, and returns `none` exactly
when no source matches; it is total and never returns a mismatching source. -/
theorem c4_resolver_first_match (srcs : List Source) (id : String) :
    (findSource srcs id = none ↔ ∀ s ∈ srcs, natToStr s.id ≠ id) ∧
    (∀ s, findSource srcs id = some s →
      natToStr s.id = id ∧ ∃ pre post, srcs = pre ++ s :: post ∧ ∀ x ∈ pre, natToStr x.id ≠ id) :=
  ⟨findSource_none_iff srcs id, fun _ h => findSource_some h⟩

/-- Witness for C4: resolving id `"2"` in `[src1, src2]` returns `src2`,
the first (and only) match, with the non-matching `src1` before it. -/
theorem c4_resolver_witness :
    natToStr src2.id = "2" ∧
    ∃ pre post, [src1, src2] = pre ++ src2 :: post ∧ ∀ x ∈ pre, natToStr x.id ≠ "2" :=
  (c4_resolver_first_match [src1, src2] "2").2 src2 (by decide)

/-! ## Visibility state machine -/

/-- Claim C5: the per-citation visibility state starts at `AllHidden`
(`none`), toggling an id already expanded collapses to `AllHidden`,
toggling any other id moves directly to `Expanded` of that id, and any
expanded result holds exactly the toggled id (at most one card open). -/
theorem c5_toggle_state_machine :
    initialShowSources = none ∧
    (∀ (x : Nat) (s : Option Nat),
      (s = some x → toggleSource x s = none) ∧ (s ≠ some x → toggleSource x s = some x)) ∧
    (∀ (x : Nat) (s : Option Nat) (a : Nat), toggleSource x s = some a → a = x) := by
  refine ⟨rfl, fun x s => ⟨fun h => ?_, fun h => ?_⟩, fun x s a h => ?_⟩
  · simp [toggleSource, h]
  · simp [toggleSource, h]
  · by_cases hs : s = some x
    · simp [toggleSource, hs] at h
    · rw [toggleSource, if_neg hs] at h
      injection h with h
      exact h.symm

/-- Witness for C5: the spec scenario — toggle 1 from hidden, toggle 1
again, then toggle 2 while 1 is expanded. -/
theorem c5_toggle_witness :
    toggleSource 1 none = some 1 ∧ toggleSource 1 (some 1) = none ∧
    toggleSource 2 (some 1) = some 2 :=
  ⟨(c5_toggle_state_machine.2.1 1 none).2 (by simp),
   (c5_toggle_state_machine.2.1 1 (some 1)).1 rfl,
   (c5_toggle_state_machine.2.1 2 (some 1)).2 (by simp)⟩

/-! ## Search handler claims -/

/-- Claim C10: invoking a search with the empty query string is a complete
no-op — state unchanged, the payload oracle irrelevant, nothing logged. -/
theorem c10_empty_query_noop (st : UIState) (fetch : String → FetchResult) :
    handleSearch st "" fetch = (st, []) := by
  simp [handleSearch]

/-- Claim C7: any non-empty search resets visibility to `AllHidden`, for
every prior state and every resolution outcome. -/
theorem c7_search_resets_visibility (st : UIState) (q : String) (fetch : String → FetchResult)
    (hq : q ≠ "") : ((handleSearch st q fetch).1).showSources = none := by
  unfold handleSearch
  rw [if_neg hq]
  cases hm : matchFragment (slugify q) with
  | none => simp [hm]
  | some file =>
    cases hf : fetch file with
    | ok d => simp [hm, hf]
    | err => simp [hm, hf]

/-- Witness for C7: an unresolvable search from a state with source 1
expanded ends with visibility `AllHidden`. -/
theorem c7_search_witness :
    ((handleSearch st0 "what is the weather" (fun _ => FetchResult.err)).1).showSources = none :=
  c7_search_resets_visibility st0 "what is the weather" (fun _ => FetchResult.err) (by decide)

/-- Counterexample to C6 as stated: after an unresolvable search the UI
state does not remain exactly as it was — the query, visibility and tab
fields were already updated before the fragment match failed. -/
theorem c6_counterexample :
    (handleSearch st0 "what is the weather" (fun _ => FetchResult.err)).1 ≠ st0 := by
  decide

/-- Claim C6 (amended): when the query slug matches no known fragment, the
failure is only logged and the current answer is neither set nor changed;
the query field, visibility (reset to `AllHidden`) and active tab are
updated as for any search start. -/
theorem c6_no_match_amended (st : UIState) (q : String) (fetch : String → FetchResult)
    (hq : q ≠ "") (hm : matchFragment (slugify q) = none) :
    handleSearch st q fetch =
      ({ st with query := q, showSources := none, activeTab := "perplexity" },
       [LogEntry.noMatch (slugify q)]) := by
  unfold handleSearch
  rw [if_neg hq]
  simp [hm]

/-- Witness for C6 (amended): the unresolvable query leaves the (absent)
answer untouched while logging the failure. -/
theorem c6_no_match_witness :
    handleSearch st0 "what is the weather" (fun _ => FetchResult.err) =
      (⟨"what is the weather", none, none, "perplexity"⟩,
       [LogEntry.noMatch "what-is-the-weather"]) :=
  c6_no_match_amended st0 "what is the weather" (fun _ => FetchResult.err) (by decide) (by decide)

/-! ## Rendering pass lemmas -/

/-- Citation segments render as `null` (the `return null` branch). -/
theorem renderLoop_cite (sources : List Source) (sh : Option Nat) (c i : String)
    (rest : List Segment) :
    renderLoop sources sh (Segment.citation c i :: rest) = renderLoop sources sh rest := rfl

/-- A text segment containing a period, directly followed by a citation
segment, is split at the `lastIndexOf` position. -/
theorem renderLoop_text_split (sources : List Source) (sh : Option Nat) (t c cid : String)
    (rest : List Segment) (p : Nat) (hp : lastIdxOf '.' t.data = some p) :
    renderLoop sources sh (Segment.text t :: Segment.citation c cid :: rest) =
      Piece.str ⟨t.data.take (p + 1)⟩ ::
        Piece.cite cid (findSource sources cid) ::
          ((if cardCond sh cid then [Piece.card (findSource sources cid)] else []) ++
            (Piece.str ⟨t.data.drop (p + 1)⟩ ::
              renderLoop sources sh (Segment.citation c cid :: rest))) := by
  simp [renderLoop, hp]

/-- A text segment with no period renders verbatim. -/
theorem renderLoop_text_noPeriod (sources : List Source) (sh : Option Nat) (t : String)
    (rest : List Segment) (hp : lastIdxOf '.' t.data = none) :
    renderLoop sources sh (Segment.text t :: rest) =
      Piece.str t :: renderLoop sources sh rest := by
  cases rest with
  | nil => simp [renderLoop, hp]
  | cons sg r =>
    cases sg with
    | text t2 => simp [renderLoop, hp]
    | citation co i => simp [renderLoop, hp]

/-- A text segment not followed by a citation segment renders verbatim. -/
theorem renderLoop_text_noCite (sources : List Source) (sh : Option Nat) (t : String)
    (rest : List Segment) (hnc : ∀ co i r, rest ≠ Segment.citation co i :: r) :
    renderLoop sources sh (Segment.text t :: rest) =
      Piece.str t :: renderLoop sources sh rest := by
  cases rest with
  | nil => cases hl : lastIdxOf '.' t.data <;> simp [renderLoop, hl]
  | cons sg r =>
    cases sg with
    | text t2 => cases hl : lastIdxOf '.' t.data <;> simp [renderLoop, hl]
    | citation co i => exact absurd rfl (hnc co i r)

/-- Every `SourceCard` block rendered anywhere carries exactly a resolver
result for some citation id. -/
theorem card_mem_renderLoop (sources : List Source) (sh : Option Nat) :
    ∀ (segs : List Segment) (o : Option Source), Piece.card o ∈ renderLoop sources sh segs →
      ∃ cid, o = findSource sources cid := by
  intro segs
  induction segs with
  | nil => intro o h; simp [renderLoop] at h
  | cons sg rest ih =>
    intro o h
    cases sg with
    | citation c i =>
      rw [renderLoop_cite] at h
      exact ih o h
    | text t =>
      cases hl : lastIdxOf '.' t.data with
      | none =>
        rw [renderLoop_text_noPeriod sources sh t rest hl] at h
        rcases List.mem_cons.mp h with h1 | h2
        · exact absurd h1 (by simp)
        · exact ih o h2
      | some p =>
        cases rest with
        | nil =>
          rw [renderLoop_text_noCite sources sh t [] (by intro co i r hco; simp at hco)] at h
          rcases List.mem_cons.mp h with h1 | h2
          · exact absurd h1 (by simp)
          · exact ih o h2
        | cons sg2 r2 =>
          cases sg2 with
          | text t2 =>
            rw [renderLoop_text_noCite sources sh t (Segment.text t2 :: r2)
              (by intro co i r hco; simp at hco)] at h
            rcases List.mem_cons.mp h with h1 | h2
            · exact absurd h1 (by simp)
            · exact ih o h2
          | citation c2 cid2 =>
            rw [renderLoop_text_split sources sh t c2 cid2 r2 p hl] at h
            simp only [List.mem_cons, List.mem_append] at h
            rcases h with h1 | h1 | h1
            · exact absurd h1 (by simp)
            · exact absurd h1 (by simp)
            · rcases h1 with h1 | h1
              · by_cases hc : cardCond sh cid2
                · rw [if_pos hc] at h1
                  simp at h1
                  exact ⟨cid2, h1⟩
                · rw [if_neg hc] at h1
                  simp at h1
              · rcases h1 with h2 | h2
                · exact absurd h2 (by simp)
                · exact ih o h2

/-- Claim C9: a citation id with a leading zero (such as `"01"`) resolves to
no source — canonical decimal stringification never has leading zeros — and
consequently no rendered source card for such an id ever carries a source,
even when a source with the corresponding numeric value exists. -/
theorem c9_leading_zero (id : String) (h0 : id.data.head? = some '0')
    (h2 : 2 ≤ id.data.length) :
    (∀ srcs : List Source, findSource srcs id = none) ∧
    (∀ (srcs : List Source) (sh : Option Nat) (segs : List Segment) (s : Source),
      Piece.card (some s) ∈ renderLoop srcs sh segs → natToStr s.id ≠ id) := by
  have hnone : ∀ srcs : List Source, findSource srcs id = none := fun srcs =>
    (findSource_none_iff srcs id).mpr (fun s _ => natToStr_ne_leading_zero s.id id h0 h2)
  refine ⟨hnone, fun srcs sh segs s hmem heq => ?_⟩
  obtain ⟨cid, hcid⟩ := card_mem_renderLoop srcs sh segs (some s) hmem
  have hs := findSource_some hcid.symm
  rw [heq] at hs
  rw [← hs.1] at hcid
  rw [hnone srcs] at hcid
  exact Option.noConfusion hcid

/-- Witness for C9: with a source of numeric id `1` present, the citation
id `"01"` still resolves to nothing. -/
theorem c9_leading_zero_witness : findSource [src1] "01" = none :=
  (c9_leading_zero "01" rfl (by decide)).1 [src1]

/-! ## Marker matching lemmas -/

/-- A successful match decomposes the input as marker followed by the rest,
with the matched text and the extracted id determined by the inner digits. -/
theorem matchAt_some {l : List Char} {co i : String} {r : List Char}
    (h : matchAt l = some (co, i, r)) :
    ∃ d, IsDigitRun d ∧ l = markerChars d ++ r ∧ co = ⟨markerChars d⟩ ∧ i = ⟨d⟩ := by
  cases l with
  | nil => simp [matchAt] at h
  | cons c cs =>
    by_cases hc : c = '【'
    case neg => simp [matchAt, hc] at h
    case pos =>
      subst hc
      by_cases hds : cs.takeWhile Char.isDigit = []
      case pos => simp [matchAt, hds] at h
      case neg =>
        cases hdw : cs.dropWhile Char.isDigit with
        | nil => simp [matchAt, hds, hdw] at h
        | cons x rest2 =>
          by_cases hx : x = '】'
          case neg => simp [matchAt, hds, hdw, hx] at h
          case pos =>
            subst hx
            have hred : matchAt ('【' :: cs) =
                some (⟨'【' :: (cs.takeWhile Char.isDigit ++ ['】'])⟩,
                  ⟨cs.takeWhile Char.isDigit⟩, rest2) := by
              simp [matchAt, hds, hdw]
            rw [hred] at h
            have h2 : (⟨'【' :: (cs.takeWhile Char.isDigit ++ ['】'])⟩ : String) = co ∧
                (⟨cs.takeWhile Char.isDigit⟩ : String) = i ∧ rest2 = r := by
              simpa using h
            obtain ⟨rfl, rfl, rfl⟩ := h2
            refine ⟨cs.takeWhile Char.isDigit,
              ⟨hds, fun a ha => List.mem_takeWhile_imp ha⟩, ?_, rfl, rfl⟩
            have hsplit : cs.takeWhile Char.isDigit ++ cs.dropWhile Char.isDigit = cs :=
              List.takeWhile_append_dropWhile Char.isDigit cs
            rw [hdw] at hsplit
            rw [markerChars]
            simp only [List.cons_append, List.append_assoc, List.singleton_append,
              List.nil_append]
            rw [hsplit]

/-- A failed match means no marker occurrence starts here. -/
theorem not_startsWithMarker_of_matchAt_none {l : List Char} (h : matchAt l = none) :
    ¬ StartsWithMarker l := by
  rintro ⟨d, r, ⟨hne, hdig⟩, rfl⟩
  have hl : markerChars d ++ r = '【' :: (d ++ '】' :: r) := by simp [markerChars]
  rw [hl] at h
  have htw : (d ++ '】' :: r).takeWhile Char.isDigit = d := by
    rw [List.takeWhile_append_of_pos hdig, List.takeWhile_cons_of_neg (by decide)]
    simp
  have hdw : (d ++ '】' :: r).dropWhile Char.isDigit = '】' :: r := by
    rw [List.dropWhile_append_of_pos hdig, List.dropWhile_cons_of_neg (by decide)]
  simp [matchAt, htw, hdw, hne] at h

/-- A successful match starts with a marker occurrence. -/
theorem startsWithMarker_of_matchAt_some {l : List Char} {x : String × String × List Char}
    (h : matchAt l = some x) : StartsWithMarker l := by
  obtain ⟨co, i, r⟩ := x
  obtain ⟨d, hrun, hl, _, _⟩ := matchAt_some h
  exact ⟨d, r, hrun, hl⟩

/-- A match consumes at least the two brackets. -/
theorem matchAt_some_length {l : List Char} {co i : String} {r : List Char}
    (h : matchAt l = some (co, i, r)) : r.length + 2 ≤ l.length := by
  obtain ⟨d, _, hl, _, _⟩ := matchAt_some h
  subst hl
  simp only [markerChars, List.length_append, List.length_cons]
  omega

/-- The empty input starts with no marker. -/
theorem not_startsWithMarker_nil : ¬ StartsWithMarker ([] : List Char) := by
  rintro ⟨d, r, _, h⟩
  simp [markerChars] at h

/-- `hasMarkerB` is the scan for a marker occurrence at any position. -/
theorem hasMarkerB_false_iff (l : List Char) :
    hasMarkerB l = false ↔ ∀ i, ¬ StartsWithMarker (l.drop i) := by
  induction l with
  | nil =>
    constructor
    · intro _ i
      rw [List.drop_nil]
      exact not_startsWithMarker_nil
    · intro _
      rfl
  | cons c cs ih =>
    rw [hasMarkerB]
    constructor
    · intro h i
      rcases Bool.or_eq_false_iff.mp h with ⟨h1, h2⟩
      cases i with
      | zero =>
        rw [List.drop_zero]
        cases hm : matchAt (c :: cs) with
        | none => exact not_startsWithMarker_of_matchAt_none hm
        | some x => rw [hm] at h1; simp at h1
      | succ i =>
        rw [List.drop_succ_cons]
        exact (ih.mp h2) i
    · intro h
      apply Bool.or_eq_false_iff.mpr
      refine ⟨?_, ih.mpr (fun i => by have hi := h (i + 1); rwa [List.drop_succ_cons] at hi)⟩
      cases hm : matchAt (c :: cs) with
      | none => rfl
      | some x =>
        have h0 := h 0
        rw [List.drop_zero] at h0
        exact absurd (startsWithMarker_of_matchAt_some hm) h0

/-! ## Segmenter lemmas -/

/-- Concatenating the content of every produced segment recovers the
pending text followed by the remaining input. -/
theorem segLoopF_concat : ∀ (fuel : Nat) (l : List Char), l.length < fuel →
    ∀ pend : List Char,
    ((segLoopF fuel pend l).map (fun sg => (segContent sg).data)).flatten = pend.reverse ++ l := by
  intro fuel
  induction fuel with
  | zero => intro l hl; omega
  | succ fuel ih =>
    intro l hl pend
    cases l with
    | nil =>
      cases pend with
      | nil => simp [segLoopF]
      | cons c p0 => simp [segLoopF, segContent]
    | cons c cs =>
      cases hm : matchAt (c :: cs) with
      | none =>
        rw [show segLoopF (fuel + 1) pend (c :: cs) = segLoopF fuel (c :: pend) cs from by
          simp [segLoopF, hm]]
        rw [ih cs (by simp only [List.length_cons] at hl; omega) (c :: pend)]
        simp
      | some x =>
        obtain ⟨co, i0, r⟩ := x
        obtain ⟨d, hrun, hl', hco, hi0⟩ := matchAt_some hm
        subst hco hi0
        have hstep : segLoopF (fuel + 1) pend (c :: cs) =
            (if pend.isEmpty then [] else [Segment.text ⟨pend.reverse⟩]) ++
              (Segment.citation ⟨markerChars d⟩ ⟨d⟩ :: segLoopF fuel [] r) := by
          simp [segLoopF, hm]
        have hlen := matchAt_some_length hm
        have hrl : r.length < fuel := by
          simp only [List.length_cons] at hl hlen
          omega
        rw [hstep, hl']
        have hrec := ih r hrl []
        rw [List.reverse_nil, List.nil_append] at hrec
        cases pend with
        | nil =>
          simp only [List.isEmpty_nil, if_true, List.nil_append, List.map_cons,
            List.flatten_cons, List.reverse_nil]
          rw [hrec]
          simp [segContent]
        | cons c0 p0 =>
          simp only [List.isEmpty_cons, Bool.false_eq_true, if_false, List.singleton_append,
            List.map_cons, List.flatten_cons]
          rw [hrec]
          simp [segContent]

/-- With no marker anywhere, the scan loop emits the whole input as one
text segment (or nothing when there is nothing to emit). -/
theorem segLoopF_noMarker : ∀ (fuel : Nat) (l : List Char), l.length < fuel →
    ∀ pend : List Char, hasMarkerB l = false →
    segLoopF fuel pend l =
      if pend.isEmpty && l.isEmpty then [] else [Segment.text ⟨pend.reverse ++ l⟩] := by
  intro fuel
  induction fuel with
  | zero => intro l hl; omega
  | succ fuel ih =>
    intro l hl pend hnm
    cases l with
    | nil =>
      cases pend with
      | nil => simp [segLoopF]
      | cons c p0 => simp [segLoopF]
    | cons c cs =>
      rw [hasMarkerB] at hnm
      rcases Bool.or_eq_false_iff.mp hnm with ⟨h1, h2⟩
      have hm : matchAt (c :: cs) = none := by
        cases hm : matchAt (c :: cs) with
        | none => rfl
        | some x => rw [hm] at h1; simp at h1
      rw [show segLoopF (fuel + 1) pend (c :: cs) = segLoopF fuel (c :: pend) cs from by
        simp [segLoopF, hm]]
      rw [ih cs (by simp only [List.length_cons] at hl; omega) (c :: pend) h2]
      simp

/-- The scan loop refines the spec-side segmentation contract, given that
no marker starts inside the pending text. -/
theorem segLoopF_spec : ∀ (fuel : Nat) (l : List Char), l.length < fuel →
    ∀ pend : List Char,
    (∀ i, i < pend.length → ¬ StartsWithMarker ((pend.reverse ++ l).drop i)) →
    SpecSegmentation (pend.reverse ++ l) (segLoopF fuel pend l) := by
  intro fuel
  induction fuel with
  | zero => intro l hl; omega
  | succ fuel ih =>
    intro l hl pend hinv
    cases l with
    | nil =>
      cases pend with
      | nil =>
        rw [show segLoopF (fuel + 1) ([] : List Char) [] = [] from by simp [segLoopF]]
        simpa using SpecSegmentation.nil
      | cons c0 p0 =>
        rw [show segLoopF (fuel + 1) (c0 :: p0) [] = [Segment.text ⟨(c0 :: p0).reverse⟩] from by
          simp [segLoopF]]
        refine SpecSegmentation.text (c0 :: p0).reverse [] [] (by simp) ?_
          (Or.inl rfl) SpecSegmentation.nil
        intro i hi
        exact hinv i (by simpa using hi)
    | cons c cs =>
      cases hm : matchAt (c :: cs) with
      | none =>
        rw [show segLoopF (fuel + 1) pend (c :: cs) = segLoopF fuel (c :: pend) cs from by
          simp [segLoopF, hm]]
        have hS : pend.reverse ++ c :: cs = (c :: pend).reverse ++ cs := by simp
        rw [hS]
        apply ih cs (by simp only [List.length_cons] at hl; omega) (c :: pend)
        intro i hi
        rw [← hS]
        simp only [List.length_cons] at hi
        by_cases hip : i < pend.length
        · exact hinv i hip
        · have hieq : i = pend.length := by omega
          subst hieq
          have hdrop : (pend.reverse ++ c :: cs).drop pend.length = c :: cs :=
            List.drop_left' (by simp)
          rw [hdrop]
          exact not_startsWithMarker_of_matchAt_none hm
      | some x =>
        obtain ⟨co, i0, r⟩ := x
        obtain ⟨d, hrun, hl', hco, hi0⟩ := matchAt_some hm
        subst hco hi0
        have hstep : segLoopF (fuel + 1) pend (c :: cs) =
            (if pend.isEmpty then [] else [Segment.text ⟨pend.reverse⟩]) ++
              (Segment.citation ⟨markerChars d⟩ ⟨d⟩ :: segLoopF fuel [] r) := by
          simp [segLoopF, hm]
        have hlen := matchAt_some_length hm
        have hrl : r.length < fuel := by
          simp only [List.length_cons] at hl hlen
          omega
        have hrec : SpecSegmentation r (segLoopF fuel [] r) := by
          have h := ih r hrl [] (fun i hi => absurd hi (by simp))
          simpa using h
        rw [hstep, hl']
        cases pend with
        | nil =>
          simp only [List.isEmpty_nil, if_true, List.nil_append, List.reverse_nil]
          exact SpecSegmentation.cite d r _ hrun hrec
        | cons c0 p0 =>
          simp only [List.isEmpty_cons, if_false, List.singleton_append, Bool.false_eq_true]
          refine SpecSegmentation.text (c0 :: p0).reverse (markerChars d ++ r) _ (by simp) ?_
            (Or.inr ⟨d, r, hrun, rfl⟩) (SpecSegmentation.cite d r _ hrun hrec)
          intro i hi
          rw [show (c0 :: p0).reverse ++ (markerChars d ++ r) = (c0 :: p0).reverse ++ (c :: cs)
            from by rw [hl']]
          exact hinv i (by simpa using hi)

/-! ## Segmenter claims -/

/-- Claim C1: for every input string, concatenating the `content` of every
segment the segmenter returns, in order, reproduces the input exactly. -/
theorem c1_lossless_roundtrip (s : String) : concatSegs (segmentAnswer s) = s := by
  have h := segLoopF_concat (s.data.length + 1) s.data (by omega) []
  rw [List.reverse_nil, List.nil_append] at h
  rw [concatSegs, segmentAnswer, h]

/-- Claim C2: the segmenter output is exactly the left-to-right scan
decomposition described by the spec — every marker occurrence becomes a
citation segment whose id is the digits inside it, the non-empty stretches
between matches become text segments, empty text segments are omitted. -/
theorem c2_scan_order (s : String) : SpecSegmentation s.data (segmentAnswer s) := by
  have h := segLoopF_spec (s.data.length + 1) s.data (by omega) []
    (fun i hi => absurd hi (by simp))
  simpa using h

/-- Counterexample to C8 as stated: the empty string contains no citation
marker, yet the segmenter returns no segment at all rather than one empty
text segment. -/
theorem c8_counterexample : segmentAnswer "" ≠ [Segment.text ""] := by decide

/-- Claim C8 (amended): for every non-empty input string containing zero
citation markers (including malformed ones such as ASCII brackets), the
segmenter returns exactly one text segment equal to the whole input. -/
theorem c8_no_marker_amended (s : String) (hne : s ≠ "")
    (hnm : ∀ i, ¬ StartsWithMarker (s.data.drop i)) :
    segmentAnswer s = [Segment.text s] := by
  obtain ⟨d⟩ := s
  have hd : d ≠ [] := by
    intro h
    subst h
    exact hne rfl
  have hb : hasMarkerB d = false := (hasMarkerB_false_iff d).mpr hnm
  rw [segmentAnswer, segLoopF_noMarker (d.length + 1) d (by omega) [] hb]
  cases d with
  | nil => exact absurd rfl hd
  | cons c cs => simp

/-- Witness for C8 (amended): a marker-free input with ASCII brackets
yields the single text segment. -/
theorem c8_no_marker_witness : segmentAnswer "[1] ok." = [Segment.text "[1] ok."] :=
  c8_no_marker_amended "[1] ok." (by decide)
    ((hasMarkerB_false_iff ("[1] ok.").data).mp rfl)

/-! ## Last-index lemmas -/

/-- `lastIndexOf` fails exactly when the character does not occur. -/
theorem lastIdxOf_eq_none_iff (ch : Char) : ∀ l : List Char, lastIdxOf ch l = none ↔ ch ∉ l := by
  intro l
  induction l with
  | nil => simp [lastIdxOf]
  | cons c cs ih =>
    rw [lastIdxOf]
    cases hcs : lastIdxOf ch cs with
    | some i =>
      refine ⟨fun h => by simp at h, fun h => ?_⟩
      have hmem : ch ∈ cs := by
        by_contra hn
        rw [ih.mpr hn] at hcs
        exact Option.noConfusion hcs
      exact absurd (List.mem_cons_of_mem c hmem) h
    | none =>
      by_cases hc : (c == ch) = true
      · rw [if_pos hc]
        refine ⟨fun h => by simp at h, fun h => ?_⟩
        exact absurd (by rw [← eq_of_beq hc]; exact List.mem_cons_self c cs) h
      · rw [if_neg hc]
        have hcne : ¬ c = ch := by simpa using hc
        refine ⟨fun _ hmem => ?_, fun _ => rfl⟩
        rcases List.mem_cons.mp hmem with he | hm
        · exact hcne he.symm
        · exact (ih.mp hcs) hm

/-- A successful `lastIndexOf` splits the list right after the last
occurrence: the prefix ends with the character and the suffix avoids it. -/
theorem lastIdxOf_some_spec (ch : Char) : ∀ (l : List Char) (p : Nat), lastIdxOf ch l = some p →
    ∃ pre, l.take (p + 1) = pre ++ [ch] ∧ ch ∉ l.drop (p + 1) ∧ p < l.length := by
  intro l
  induction l with
  | nil => intro p h; simp [lastIdxOf] at h
  | cons c cs ih =>
    intro p h
    rw [lastIdxOf] at h
    cases hcs : lastIdxOf ch cs with
    | some i =>
      rw [hcs] at h
      obtain rfl : i + 1 = p := by injection h
      obtain ⟨pre, h1, h2, h3⟩ := ih i hcs
      refine ⟨c :: pre, ?_, ?_, ?_⟩
      · rw [List.take_succ_cons, h1]
        rfl
      · rw [List.drop_succ_cons]
        exact h2
      · simp only [List.length_cons]
        omega
    | none =>
      rw [hcs] at h
      by_cases hc : (c == ch) = true
      · rw [if_pos hc] at h
        obtain rfl : 0 = p := by injection h
        refine ⟨[], ?_, ?_, ?_⟩
        · rw [List.take_succ_cons, List.take_zero, eq_of_beq hc]
          rfl
        · rw [List.drop_succ_cons, List.drop_zero]
          exact (lastIdxOf_eq_none_iff ch cs).mp hcs
        · simp
      · rw [if_neg hc] at h
        exact Option.noConfusion h

/-! ## Placement policy claim -/

/-- Counterexample to C3 as stated: in `"A【1】"` the citation segment is
present and resolvable, the preceding text has no period, yet the renderer
emits only the text — the citation is dropped rather than rendered at its
literal marker position. -/
theorem c3_counterexample :
    segmentAnswer "A【1】" = [Segment.text "A", Segment.citation "【1】" "1"] ∧
    renderLoop [src1] none (segmentAnswer "A【1】") = [Piece.str "A"] :=
  ⟨by decide, by decide⟩

/-- Claim C3 (amended): a text segment containing a period that is directly
followed by a citation segment is split right after its last period — the
citation (and its card, when that id is the expanded one) is placed there
and the remaining period-free characters follow; every other text segment
renders verbatim, and a citation segment renders as nothing, so a citation
not preceded by a period-bearing text segment is dropped. -/
theorem c3_placement_amended (sources : List Source) (sh : Option Nat) :
    (∀ (t c cid : String) (rest : List Segment), '.' ∈ t.data →
      ∃ pre after, t.data = (pre ++ ['.']) ++ after ∧ '.' ∉ after ∧
        renderLoop sources sh (Segment.text t :: Segment.citation c cid :: rest) =
          Piece.str ⟨pre ++ ['.']⟩ ::
            Piece.cite cid (findSource sources cid) ::
              ((if cardCond sh cid then [Piece.card (findSource sources cid)] else []) ++
                (Piece.str ⟨after⟩ :: renderLoop sources sh rest))) ∧
    (∀ (t : String) (rest : List Segment), '.' ∉ t.data →
      renderLoop sources sh (Segment.text t :: rest) =
        Piece.str t :: renderLoop sources sh rest) ∧
    (∀ (co cid : String) (rest : List Segment),
      renderLoop sources sh (Segment.citation co cid :: rest) = renderLoop sources sh rest) := by
  refine ⟨fun t c cid rest hmem => ?_, fun t rest hnot => ?_,
    fun co cid rest => renderLoop_cite sources sh co cid rest⟩
  · cases hl : lastIdxOf '.' t.data with
    | none => exact absurd hmem ((lastIdxOf_eq_none_iff '.' t.data).mp hl)
    | some p =>
      obtain ⟨pre, h1, h2, h3⟩ := lastIdxOf_some_spec '.' t.data p hl
      refine ⟨pre, t.data.drop (p + 1), ?_, h2, ?_⟩
      · rw [← h1]
        exact (List.take_append_drop (p + 1) t.data).symm
      · rw [renderLoop_text_split sources sh t c cid rest p hl, renderLoop_cite, h1]
  · exact renderLoop_text_noPeriod sources sh t rest
      ((lastIdxOf_eq_none_iff '.' t.data).mpr hnot)

/-- Witness for C3 (amended): the spec example, text `"A. B"` followed by
`【1】`, splits between `"A."` and `" B"` with the citation after `"A."`. -/
theorem c3_placement_witness :
    ∃ pre after, ("A. B" : String).data = (pre ++ ['.']) ++ after ∧ '.' ∉ after ∧
      renderLoop [src1] none (Segment.text "A. B" :: Segment.citation "【1】" "1" :: []) =
        Piece.str ⟨pre ++ ['.']⟩ ::
          Piece.cite "1" (findSource [src1] "1") ::
            ((if cardCond none "1" then [Piece.card (findSource [src1] "1")] else []) ++
              (Piece.str ⟨after⟩ :: renderLoop [src1] none [])) :=
  (c3_placement_amended [src1] none).1 "A. B" "【1】" "1" [] (by decide)

end Coveo
